import Mathlib

/-!
Verification development for `fix_csv_data.py`, a one-file CSV normalizer.

The script walks a directory of CSV files; in each row it rewrites the values
of five hard-coded numeric columns: the sentinel `<nil>` becomes `"0"`, and a
non-empty value whose lowercased form contains `e+` is parsed with Python's
`float` and re-rendered with `f"{num:.2f}"` (parse failures leave the value
as it was).  A file is rewritten in place only when the `changes_made` flag
was set.  The driver `main` globs `*.csv`, sorts the paths, processes each
file under a per-file `try/except`, and always prints a final summary.

The embedding below models rows as functions from column name to an optional
cell (`none` = key absent from the dict, `Cell.null` = Python `None`, the
value `csv.DictReader` supplies for columns missing from a short row).
Python's `float(str)` is modelled exactly over ASCII inputs by parsing the
numeric literal into an exact rational and rounding it to the nearest IEEE-754
binary64 value (round-half-to-even, overflow to infinity, as CPython does);
`f"{num:.2f}"` is modelled by correctly rounding that rational to two decimal
digits, again half-to-even, with `inf`/`nan` rendered as Python renders them.
CPython additionally maps non-ASCII decimal digits and unicode spaces to
ASCII before parsing; the model covers the ASCII fragment.
-/

set_option maxRecDepth 20000
set_option exponentiation.threshold 10000

namespace CsvFix

/-- A Python CSV cell as produced by `csv.DictReader`: either `None`
(for a column a short row did not supply) or a string. -/
inductive Cell where
  | null : Cell
  | str (s : String) : Cell
deriving DecidableEq

/-- A parsed CSV row, as the Python dict: a map from column name to an
optional cell; `none` means the key is absent from the dict. -/
def Row : Type := String → Option Cell

/-! ### Character and string helpers (structural, kernel-evaluable) -/

/-- Whether `sub` occurs contiguously inside `l` (Python's `in` on strings). -/
def hasInfixL (sub : List Char) : List Char → Bool
  | [] => sub.isEmpty
  | c :: t => sub.isPrefixOf (c :: t) || hasInfixL sub t

/-- Python's `str.lower` on the character list (ASCII fragment). -/
def lowerChars (s : String) : List Char := s.toList.map Char.toLower

/-- The test `'e+' in value.lower()` from the script. -/
def hasEPlus (s : String) : Bool := hasInfixL ['e', '+'] (lowerChars s)

/-- Characters `str.strip()` removes (ASCII whitespace, as in `float(" 1 ")`). -/
def isPyWs (c : Char) : Bool :=
  c = ' ' || c = '\t' || c = '\n' || c = '\r' || c = '\x0b' || c = '\x0c'

/-- Strip leading and trailing whitespace, as CPython's float parser does. -/
def stripWs (l : List Char) : List Char :=
  ((l.dropWhile isPyWs).reverse.dropWhile isPyWs).reverse

/-- Numeric value of an ASCII digit character. -/
def digitVal (c : Char) : ℕ := c.toNat - 48

/-! ### Python `float(str)` : exact parsing of the literal -/

/-- Consume further digits, allowing a single underscore between two digits
(CPython's numeric-literal underscore rule); returns the accumulated value,
the digit count, and the unconsumed remainder. -/
def digitsCore : ℕ → ℕ → List Char → ℕ × ℕ × List Char
  | acc, cnt, [] => (acc, cnt, [])
  | acc, cnt, '_' :: c :: rest =>
    if c.isDigit then digitsCore (10 * acc + digitVal c) (cnt + 1) rest
    else (acc, cnt, '_' :: c :: rest)
  | acc, cnt, c :: rest =>
    if c.isDigit then digitsCore (10 * acc + digitVal c) (cnt + 1) rest
    else (acc, cnt, c :: rest)

/-- Parse a non-empty digit run (underscores allowed between digits). -/
def parseUDigits : List Char → Option (ℕ × ℕ × List Char)
  | c :: rest => if c.isDigit then some (digitsCore (digitVal c) 1 rest) else none
  | [] => none

/-- Parse an optional sign; `true` means negative. -/
def parseSign : List Char → Bool × List Char
  | '+' :: r => (false, r)
  | '-' :: r => (true, r)
  | l => (false, l)

/-- Parse the mantissa `digits [. digits] | . digits`; returns the mantissa
as an integer together with the count of fractional digits. -/
def parseMantissa (l : List Char) : Option (ℕ × ℕ × List Char) :=
  match parseUDigits l with
  | some (i, _, r) =>
    match r with
    | '.' :: r2 =>
      match parseUDigits r2 with
      | some (f, fc, r3) => some (i * 10 ^ fc + f, fc, r3)
      | none => some (i, 0, r2)
    | _ => some (i, 0, r)
  | none =>
    match l with
    | '.' :: r2 =>
      match parseUDigits r2 with
      | some (f, fc, r3) => some (f, fc, r3)
      | none => none
    | _ => none

/-- Parse an optional exponent part `('e'|'E') [sign] digits`. -/
def parseExpPart : List Char → Option (ℤ × List Char)
  | [] => some (0, [])
  | c :: r =>
    if c = 'e' || c = 'E' then
      let sg := parseSign r
      match parseUDigits sg.2 with
      | some (d, _, r3) => some ((if sg.1 then -(d : ℤ) else (d : ℤ)), r3)
      | none => none
    else some (0, c :: r)

/-- Parse the unsigned body of a float literal; the result `(M, T)` denotes
the exact rational `M * 10 ^ T`.  Fails unless the whole input is consumed. -/
def pyParseAbs (l : List Char) : Option (ℕ × ℤ) :=
  match parseMantissa l with
  | some (M, fc, r) =>
    match parseExpPart r with
    | some (ex, []) => some (M, ex - (fc : ℤ))
    | _ => none
  | none => none

/-- The exact value `M * 10 ^ T` as a numerator/denominator pair. -/
def magOfParts (M : ℕ) (T : ℤ) : ℕ × ℕ :=
  if 0 ≤ T then (M * 10 ^ T.toNat, 1) else (M, 10 ^ (-T).toNat)

/-! ### Rounding an exact rational to IEEE-754 binary64 -/

/-- Round `n / d` (with `d ≠ 0`) to the nearest integer, ties to even. -/
def roundHalfEvenN (n d : ℕ) : ℕ :=
  let q := n / d
  let r := n % d
  if 2 * r < d then q
  else if d < 2 * r then q + 1
  else if q % 2 = 0 then q else q + 1

/-- Doubling search for an exponent `h` with `n < 2 ^ h`. -/
def findHi : ℕ → ℕ → ℕ → ℕ
  | 0, _, h => h
  | f + 1, n, h => if n < 2 ^ h then h else findHi f n (2 * h)

/-- Binary search for `⌊log₂ n⌋` inside `[lo, hi)`. -/
def bsearchLog : ℕ → ℕ → ℕ → ℕ → ℕ
  | 0, _, lo, _ => lo
  | f + 1, n, lo, hi =>
    if hi ≤ lo + 1 then lo
    else
      let mid := (lo + hi) / 2
      if n < 2 ^ mid then bsearchLog f n lo mid else bsearchLog f n mid hi

/-- `⌊log₂ n⌋` for `n ≥ 1` (logarithmic-depth, kernel-evaluable). -/
def natLog2' (n : ℕ) : ℕ :=
  if n ≤ 1 then 0 else bsearchLog 64 n 0 (findHi 64 n 1)

/-- `⌊log₂ (n / d)⌋` for `n, d ≥ 1`. -/
def ilog2N (n d : ℕ) : ℤ :=
  if d ≤ n then (natLog2' (n / d) : ℤ)
  else
    let t := natLog2' (d / n)
    if n * 2 ^ t = d then -(t : ℤ) else -(t : ℤ) - 1

/-- Round the exact nonnegative rational `n / d` to the nearest binary64
magnitude (round-half-to-even, subnormals included); `none` means the value
overflows to infinity, exactly as C `strtod` / CPython report it. -/
def roundMagToDouble (n d : ℕ) : Option ℚ :=
  if n = 0 then some 0
  else
    let e := ilog2N n d
    if 1023 < e then none
    else
      let e' : ℤ := max e (-1022)
      let s : ℤ := 52 - e'
      let sn := if 0 ≤ s then n * 2 ^ s.toNat else n
      let sd := if 0 ≤ s then d else d * 2 ^ (-s).toNat
      let m := roundHalfEvenN sn sd
      if 2 ^ (1076 - e').toNat ≤ m then none
      else
        some (if 0 ≤ s then mkRat (m : ℤ) (2 ^ s.toNat)
              else mkRat ((m * 2 ^ (-s).toNat : ℕ) : ℤ) 1)

/-- The result of Python's `float(str)`: a sign with a finite binary64
magnitude, a signed infinity, or `nan`. -/
inductive PyFloat where
  | finite (neg : Bool) (mag : ℚ) : PyFloat
  | inf (neg : Bool) : PyFloat
  | nan : PyFloat
deriving DecidableEq

/-- Python's `float(str)` over ASCII strings: strip whitespace, read an
optional sign, accept `inf`/`infinity`/`nan` case-insensitively, otherwise
parse the numeric literal exactly and round it to binary64.  `none` models
the `ValueError` that the script's bare `except` swallows; note that an
overflowing literal such as `1e+999` is *not* an error in Python — it
parses to infinity. -/
def pyFloatOfString (s : String) : Option PyFloat :=
  let l := stripWs s.toList
  let sg := parseSign l
  let low := sg.2.map Char.toLower
  if low = ['i', 'n', 'f'] || low = ['i', 'n', 'f', 'i', 'n', 'i', 't', 'y'] then
    some (.inf sg.1)
  else if low = ['n', 'a', 'n'] then some .nan
  else
    match pyParseAbs sg.2 with
    | some (M, T) =>
      let p := magOfParts M T
      match roundMagToDouble p.1 p.2 with
      | some v => some (.finite sg.1 v)
      | none => some (.inf sg.1)
    | none => none

/-! ### Python `f"{num:.2f}"` -/

/-- ASCII digit character for `d < 10`. -/
def digitChar (d : ℕ) : Char := Char.ofNat (48 + d)

/-- Decimal digits of `n`, most significant first (fuel-driven recursion). -/
def natChars : ℕ → ℕ → List Char → List Char
  | 0, _, acc => acc
  | f + 1, n, acc =>
    if n < 10 then digitChar n :: acc
    else natChars f (n / 10) (digitChar (n % 10) :: acc)

/-- Decimal rendering of a natural number. -/
def natStr (n : ℕ) : List Char := natChars (n + 1) n []

/-- Python's `f"{num:.2f}"`: fixed-point with exactly two fractional digits
for finite values (correctly rounded, ties to even, as CPython's dtoa does),
`inf`/`-inf`/`nan` for the special values. -/
def pyFormatF2 (f : PyFloat) : String :=
  match f with
  | .nan => "nan"
  | .inf neg => if neg then "-inf" else "inf"
  | .finite neg mag =>
    let n := roundHalfEvenN (mag.num.toNat * 100) mag.den
    let k := n % 100
    String.mk ((if neg then ['-'] else []) ++
      natStr (n / 100) ++ '.' :: [digitChar (k / 10), digitChar (k % 10)])

/-- `convert_scientific_to_decimal` from the script: if the lowercased value
contains `e+`, parse it with `float` and render it with `f"{num:.2f}"`; a
parse failure (the swallowed `ValueError`) and a value without `e+` both
return the input unchanged.  Total by construction: the source wraps the body
in `try/except: return value`. -/
def convert_scientific_to_decimal (value : String) : String :=
  if hasEPlus value then
    match pyFloatOfString value with
    | some f => pyFormatF2 f
    | none => value
  else value

/-! ### The row normalizer of `fix_csv_file` -/

/-- The hard-coded `numeric_columns` list of the script. -/
def numericColumns : List String :=
  ["total_volume_usd", "daily_users", "numberOfNewUsers", "daily_trades", "total_fees_usd"]

/-- Functional update of a row at one key (`row[col] = v`). -/
def update (r : Row) (col : String) (v : Cell) : Row :=
  fun c => if c = col then some v else r c

/-- The body of the inner loop of `fix_csv_file` for one column: if the key
is present, replace `<nil>` by `"0"`, else convert a truthy value containing
`e+`; returns the updated row and whether this column set `changes_made`. -/
def processCol (r : Row) (col : String) : Row × Bool :=
  match r col with
  | none => (r, false)
  | some v =>
    if v = Cell.str "<nil>" then (update r col (Cell.str "0"), true)
    else
      match v with
      | Cell.null => (r, false)
      | Cell.str s =>
        if (s != "") && hasEPlus s then
          (update r col (Cell.str (convert_scientific_to_decimal s)), true)
        else (r, false)

/-- The value-level effect of `processCol` on one cell, together with its
contribution to `changes_made`. -/
def valueStep : Option Cell → Option Cell × Bool
  | none => (none, false)
  | some v =>
    if v = Cell.str "<nil>" then (some (Cell.str "0"), true)
    else
      match v with
      | Cell.null => (some Cell.null, false)
      | Cell.str s =>
        if (s != "") && hasEPlus s then
          (some (Cell.str (convert_scientific_to_decimal s)), true)
        else (some (Cell.str s), false)

/-- One step of the fold over `numeric_columns`, threading `changes_made`. -/
def fixStep (acc : Row × Bool) (col : String) : Row × Bool :=
  let s := processCol acc.1 col
  (s.1, acc.2 || s.2)

/-- Normalize one row: the inner `for col in numeric_columns` loop; the
boolean is this row's contribution to `changes_made`. -/
def fixRow (r : Row) : Row × Bool :=
  numericColumns.foldl fixStep (r, false)

/-- Normalize all rows in order; the boolean is the file's `changes_made`
flag (the OR of every column change in every row). -/
def fixRows : List Row → List Row × Bool
  | [] => ([], false)
  | r :: rs =>
    let a := fixRow r
    let b := fixRows rs
    (a.1 :: b.1, a.2 || b.2)

/-- Serialization of one row by `csv.DictWriter(fieldnames=headers)`: the
row's values listed in header order (missing keys fall back to the writer's
`restval`, the empty string). -/
def writeRow (header : List String) (r : Row) : List Cell :=
  header.map (fun c => (r c).getD (Cell.str ""))

/-- Outcome of `fix_csv_file` on one parsed file: the normalized rows, the
returned `changes_made` flag, and the rewrite — `none` when the flag is
false (the file on disk is left untouched), otherwise the header and the
serialized rows that overwrite the file. -/
structure FileResult where
  rows : List Row
  changed : Bool
  written : Option (List String × List (List Cell))

/-- `fix_csv_file`: normalize every row, and rewrite the file (same header,
rows in original order, fields in header order) only if anything changed. -/
def fix_csv_file (header : List String) (rows : List Row) : FileResult :=
  let p := fixRows rows
  { rows := p.1
    changed := p.2
    written := if p.2 then some (header, p.1.map (writeRow header)) else none }

/-! ### The run driver `main` -/

/-- One file of the directory, as `main` sees it: its path, the outcome of
reading and parsing it (`Except.error` models any exception raised by
`open`/`csv` while reading), and an optional error raised when the rewrite
opens the file for writing. -/
structure CsvFile where
  path : String
  parsed : Except String (List String × List Row)
  writeError : Option String

/-- State of the configured directory. -/
inductive DirState where
  | missing : DirState
  | unreadable : DirState
  | present (files : List CsvFile) : DirState

/-- `glob.glob(os.path.join(csv_dir, "*.csv"))`: Python's `glob` suppresses
every `OSError` raised while scanning, so a missing or unreadable directory
yields no matches at all — it is indistinguishable from an empty directory
and raises nothing. -/
def globFiles : DirState → List CsvFile
  | .missing => []
  | .unreadable => []
  | .present fs => fs

/-- The files matching the `*.csv` pattern. -/
def csvCandidates (d : DirState) : List CsvFile :=
  (globFiles d).filter (fun f => ['.', 'c', 's', 'v'].isSuffixOf f.path.toList)

/-- Lexicographic comparison of paths by code point, as Python's `sorted`
compares strings. -/
def charListLt : List Char → List Char → Bool
  | [], [] => false
  | [], _ :: _ => true
  | _ :: _, [] => false
  | a :: as, b :: bs =>
    if a.toNat < b.toNat then true
    else if b.toNat < a.toNat then false
    else charListLt as bs

/-- Insert one file into an already sorted list. -/
def insertSorted (f : CsvFile) : List CsvFile → List CsvFile
  | [] => [f]
  | g :: t =>
    if charListLt f.path.toList g.path.toList then f :: g :: t
    else g :: insertSorted f t

/-- `sorted(csv_files)`. -/
def sortFiles (l : List CsvFile) : List CsvFile := l.foldr insertSorted []

/-- Processing of one file inside the loop of `main`: read and parse (may
raise), run `fix_csv_file`, and — only when `changes_made` is set — open the
file for writing (may raise).  `Except.ok` carries the returned flag. -/
def processFile (f : CsvFile) : Except String Bool :=
  match f.parsed with
  | .error e => .error e
  | .ok hr =>
    let res := fix_csv_file hr.1 hr.2
    if res.changed then
      match f.writeError with
      | some e => .error e
      | none => .ok true
    else .ok false

/-- One iteration of the driver loop: the accumulator carries
`fixed_count`, the paths processed so far, and the reported
`(path, error)` pairs.  The `try/except Exception` of `main` is the
`.error` branch: the error is reported and the loop goes on. -/
def runStep (acc : ℕ × List String × List (String × String)) (f : CsvFile) :
    ℕ × List String × List (String × String) :=
  match processFile f with
  | .ok true => (acc.1 + 1, acc.2.1 ++ [f.path], acc.2.2)
  | .ok false => (acc.1, acc.2.1 ++ [f.path], acc.2.2)
  | .error e => (acc.1, acc.2.1 ++ [f.path], acc.2.2 ++ [(f.path, e)])

/-- What a whole run reports: the number of files discovered (`Found …`),
the paths attempted in order, the reported per-file errors, the final
`fixed_count`, and whether the closing summary line was printed (in the
script it always is — `main` ends with the summary `print`). -/
structure RunOutcome where
  found : ℕ
  processed : List String
  errors : List (String × String)
  fixedCount : ℕ
  summaryShown : Bool
deriving DecidableEq

/-- `main`: glob the directory, sort the paths, process every file under a
per-file `try/except`, then print the summary. -/
def mainRun (d : DirState) : RunOutcome :=
  let files := sortFiles (csvCandidates d)
  let res := files.foldl runStep (0, [], [])
  { found := files.length
    processed := res.2.1
    errors := res.2.2
    fixedCount := res.1
    summaryShown := true }

/-! ### Auxiliary specification-side definitions and concrete fixtures -/

/-- Whether a string ends in a decimal point followed by exactly two digits —
the "fixed-point decimal rendering with exactly two digits after the decimal
point" shape the specification describes. -/
def twoDecimalShape (s : String) : Bool :=
  match s.toList.reverse with
  | b :: a :: c :: _ => a.isDigit && b.isDigit && (c == '.')
  | _ => false

/-- Build a row from an association list of columns. -/
def rowOf (l : List (String × Cell)) : Row :=
  fun c => (l.find? (fun p => p.1 == c)).map (fun p => p.2)

/-- A row whose only field is a target column holding a string that contains
`e+` but that `float` rejects. -/
def rowEPlus : Row := rowOf [("total_volume_usd", Cell.str "e+")]

/-- A row whose only field is a target column holding the `<nil>` sentinel. -/
def rowNilV : Row := rowOf [("total_volume_usd", Cell.str "<nil>")]

/-- A row whose only field is a target column in scientific notation. -/
def rowSci : Row := rowOf [("daily_users", Cell.str "1.5e+07")]

/-- A row whose only field is a target column holding a literal that parses
to a float but overflows binary64. -/
def rowOverflow : Row := rowOf [("total_volume_usd", Cell.str "1e+999")]

/-- The example row of the specification: a date, a `<nil>` volume and a
scientific-notation user count. -/
def rowScenario : Row := rowOf
  [("date", Cell.str "2024-01-01"), ("total_volume_usd", Cell.str "<nil>"),
   ("daily_users", Cell.str "3.2e+05")]

/-- A row with an empty-string target cell and a `None` target cell (the
value `DictReader` yields for a column missing from a short row). -/
def rowEmptyCell : Row := rowOf [("daily_trades", Cell.str ""), ("total_fees_usd", Cell.null)]

/-- A small header for the file-rewrite fixtures. -/
def hdr7 : List String := ["date", "total_volume_usd", "daily_users"]

/-- A file that parses fine and needs a fix. -/
def goodFile : CsvFile :=
  { path := "b.csv", parsed := Except.ok (["total_volume_usd"], [rowNilV]), writeError := none }

/-- A file whose read/parse raises. -/
def badFile : CsvFile :=
  { path := "a.csv", parsed := Except.error "bad line", writeError := none }

/-- A directory holding one good and one bad file. -/
def dirWithBad : DirState := DirState.present [goodFile, badFile]

/-! ### Pointwise behavior of the column loop -/

theorem processCol_self (r : Row) (col : String) :
    (processCol r col).1 col = (valueStep (r col)).1 := by
  cases h : r col with
  | none => simp [processCol, valueStep, h]
  | some v =>
    cases v with
    | null => simp [processCol, valueStep, h]
    | str s =>
      by_cases hv : Cell.str s = Cell.str "<nil>"
      · simp [processCol, valueStep, h, hv, update]
      · by_cases hc : ((s != "") && hasEPlus s) = true
        · simp [processCol, valueStep, h, hv, hc, update]
        · simp [processCol, valueStep, h, hv, hc]

theorem processCol_other (r : Row) (col c : String) (hne : c ≠ col) :
    (processCol r col).1 c = r c := by
  cases h : r col with
  | none => simp [processCol, h]
  | some v =>
    cases v with
    | null => simp [processCol, h]
    | str s =>
      by_cases hv : Cell.str s = Cell.str "<nil>"
      · simp [processCol, h, hv, update, hne]
      · by_cases hc : ((s != "") && hasEPlus s) = true
        · simp [processCol, h, hv, hc, update, hne]
        · simp [processCol, h, hv, hc]

theorem processCol_flag (r : Row) (col : String) :
    (processCol r col).2 = (valueStep (r col)).2 := by
  cases h : r col with
  | none => simp [processCol, valueStep, h]
  | some v =>
    cases v with
    | null => simp [processCol, valueStep, h]
    | str s =>
      by_cases hv : Cell.str s = Cell.str "<nil>"
      · simp [processCol, valueStep, h, hv]
      · by_cases hc : ((s != "") && hasEPlus s) = true
        · simp [processCol, valueStep, h, hv, hc]
        · simp [processCol, valueStep, h, hv, hc]

theorem any_congrB {α : Type} (l : List α) (f g : α → Bool)
    (h : ∀ x ∈ l, f x = g x) : l.any f = l.any g := by
  induction l with
  | nil => rfl
  | cons a t ih =>
    simp only [List.any_cons]
    rw [h a (List.mem_cons_self a t), ih (fun x hx => h x (List.mem_cons_of_mem a hx))]

theorem foldl_fixStep_apply (cols : List String) (hnd : cols.Nodup) (r : Row) (b : Bool)
    (c : String) :
    (List.foldl fixStep (r, b) cols).1 c =
      if c ∈ cols then (valueStep (r c)).1 else r c := by
  induction cols generalizing r b with
  | nil => simp
  | cons col rest ih =>
    obtain ⟨hcol, hrest⟩ := List.nodup_cons.mp hnd
    have hstep : List.foldl fixStep (r, b) (col :: rest) =
        List.foldl fixStep ((processCol r col).1, b || (processCol r col).2) rest := rfl
    rw [hstep, ih hrest]
    by_cases hc : c ∈ rest
    · have hne : c ≠ col := fun he => hcol (he ▸ hc)
      simp [hc, List.mem_cons, processCol_other r col c hne]
    · by_cases hcc : c = col
      · subst hcc
        simp [hc, processCol_self]
      · simp [hc, hcc, processCol_other r col c hcc]

theorem foldl_fixStep_flag (cols : List String) (hnd : cols.Nodup) (r : Row) (b : Bool) :
    (List.foldl fixStep (r, b) cols).2 =
      (b || cols.any fun col => (valueStep (r col)).2) := by
  induction cols generalizing r b with
  | nil => simp
  | cons col rest ih =>
    obtain ⟨hcol, hrest⟩ := List.nodup_cons.mp hnd
    have hstep : List.foldl fixStep (r, b) (col :: rest) =
        List.foldl fixStep ((processCol r col).1, b || (processCol r col).2) rest := rfl
    rw [hstep, ih hrest]
    have hsame : ∀ x ∈ rest, (fun c => (valueStep ((processCol r col).1 c)).2) x =
        (fun c => (valueStep (r c)).2) x := by
      intro x hx
      have hne : x ≠ col := fun he => hcol (he ▸ hx)
      simp [processCol_other r col x hne]
    rw [any_congrB rest _ _ hsame, processCol_flag, List.any_cons, Bool.or_assoc]

theorem numericColumns_nodup : numericColumns.Nodup := by decide

theorem fixRow_mem (r : Row) (c : String) (h : c ∈ numericColumns) :
    (fixRow r).1 c = (valueStep (r c)).1 := by
  have := foldl_fixStep_apply numericColumns numericColumns_nodup r false c
  rw [fixRow, this, if_pos h]

theorem fixRow_not_mem (r : Row) (c : String) (h : c ∉ numericColumns) :
    (fixRow r).1 c = r c := by
  have := foldl_fixStep_apply numericColumns numericColumns_nodup r false c
  rw [fixRow, this, if_neg h]

theorem fixRow_flag (r : Row) :
    (fixRow r).2 = numericColumns.any fun col => (valueStep (r col)).2 := by
  have := foldl_fixStep_flag numericColumns numericColumns_nodup r false
  rw [fixRow, this, Bool.false_or]

theorem fixRows_fst (l : List Row) : (fixRows l).1 = l.map fun r => (fixRow r).1 := by
  induction l with
  | nil => rfl
  | cons r rs ih => simp [fixRows, ih]

theorem fixRows_snd (l : List Row) : (fixRows l).2 = l.any fun r => (fixRow r).2 := by
  induction l with
  | nil => rfl
  | cons r rs ih => simp [fixRows, ih]

theorem fixRows_length (l : List Row) : (fixRows l).1.length = l.length := by
  rw [fixRows_fst, List.length_map]

/-! ### Characters that `pyFormatF2` can emit -/

/-- Every character a `f"{num:.2f}"` rendering can contain. -/
def formatChar (c : Char) : Prop :=
  (∃ d, d < 10 ∧ c = digitChar d) ∨ c ∈ ['-', '.', 'i', 'n', 'f', 'a']

theorem natChars_chars (fuel : ℕ) :
    ∀ (n : ℕ) (acc : List Char) (c : Char), c ∈ natChars fuel n acc →
      (∃ d, d < 10 ∧ c = digitChar d) ∨ c ∈ acc := by
  induction fuel with
  | zero => intro n acc c hc; exact Or.inr hc
  | succ f ih =>
    intro n acc c hc
    by_cases hn : n < 10
    · rw [natChars, if_pos hn] at hc
      rcases List.mem_cons.mp hc with h | h
      · exact Or.inl ⟨n, hn, h⟩
      · exact Or.inr h
    · rw [natChars, if_neg hn] at hc
      rcases ih (n / 10) (digitChar (n % 10) :: acc) c hc with h | h
      · exact Or.inl h
      · rcases List.mem_cons.mp h with h' | h'
        · exact Or.inl ⟨n % 10, Nat.mod_lt _ (by norm_num), h'⟩
        · exact Or.inr h'

theorem pyFormatF2_chars (f : PyFloat) (c : Char) (hc : c ∈ (pyFormatF2 f).toList) :
    formatChar c := by
  cases f with
  | nan =>
    have : (pyFormatF2 PyFloat.nan).toList = ['n', 'a', 'n'] := rfl
    rw [this] at hc
    right; fin_cases hc <;> decide
  | inf neg =>
    cases neg with
    | false =>
      have : (pyFormatF2 (PyFloat.inf false)).toList = ['i', 'n', 'f'] := rfl
      rw [this] at hc
      right; fin_cases hc <;> decide
    | true =>
      have : (pyFormatF2 (PyFloat.inf true)).toList = ['-', 'i', 'n', 'f'] := rfl
      rw [this] at hc
      right; fin_cases hc <;> decide
  | finite neg mag =>
    have hl : (pyFormatF2 (PyFloat.finite neg mag)).toList =
        (if neg then ['-'] else []) ++
          natStr (roundHalfEvenN (mag.num.toNat * 100) mag.den / 100) ++
          '.' :: [digitChar (roundHalfEvenN (mag.num.toNat * 100) mag.den % 100 / 10),
                  digitChar (roundHalfEvenN (mag.num.toNat * 100) mag.den % 100 % 10)] := rfl
    rw [hl] at hc
    rcases List.mem_append.mp hc with h | h
    · rcases List.mem_append.mp h with h' | h'
      · right
        cases neg with
        | true => simp at h'; simp [h']
        | false => simp at h'
      · rw [natStr] at h'
        rcases natChars_chars _ _ _ _ h' with hdig | habs
        · exact Or.inl hdig
        · exact absurd habs (List.not_mem_nil c)
    · rcases List.mem_cons.mp h with h' | h'
      · right; simp [h']
      · rcases List.mem_cons.mp h' with h2 | h2
        · exact Or.inl ⟨_, by omega, h2⟩
        · rcases List.mem_cons.mp h2 with h3 | h3
          · exact Or.inl ⟨_, by omega, h3⟩
          · exact absurd h3 (List.not_mem_nil c)

theorem formatChar_props (c : Char) (h : formatChar c) :
    c.toLower ≠ 'e' ∧ c ≠ '<' := by
  rcases h with ⟨d, hd, rfl⟩ | hm
  · interval_cases d <;> exact ⟨by decide, by decide⟩
  · fin_cases hm <;> exact ⟨by decide, by decide⟩

theorem hasInfixL_ep_mem (l : List Char) (h : hasInfixL ['e', '+'] l = true) : 'e' ∈ l := by
  induction l with
  | nil => simp [hasInfixL, List.isEmpty] at h
  | cons c t ih =>
    rw [hasInfixL, Bool.or_eq_true] at h
    rcases h with h | h
    · have : c = 'e' := by
        by_contra hne
        rw [List.isPrefixOf] at h
        simp [BEq.beq] at h
        exact hne (by
          rcases h with ⟨h1, _⟩
          exact h1.symm)
      exact this ▸ List.mem_cons_self c t
    · exact List.mem_cons_of_mem c (ih h)

theorem hasEPlus_pyFormatF2 (f : PyFloat) : hasEPlus (pyFormatF2 f) = false := by
  by_contra hne
  have h : hasEPlus (pyFormatF2 f) = true := by
    cases hh : hasEPlus (pyFormatF2 f)
    · exact absurd hh hne
    · rfl
  have he : 'e' ∈ lowerChars (pyFormatF2 f) := hasInfixL_ep_mem _ h
  rw [lowerChars] at he
  rcases List.mem_map.mp he with ⟨c, hc, hlow⟩
  exact (formatChar_props c (pyFormatF2_chars f c hc)).1 hlow

theorem pyFormatF2_ne_nil_str (f : PyFloat) : pyFormatF2 f ≠ "<nil>" := by
  intro heq
  have : '<' ∈ (pyFormatF2 f).toList := by
    rw [heq]; decide
  exact (formatChar_props _ (pyFormatF2_chars f '<' this)).2 rfl

/-! ### Analysis of `convert_scientific_to_decimal` and `valueStep` -/

theorem convert_cases (s : String) :
    convert_scientific_to_decimal s = s ∨
      (hasEPlus s = true ∧ ∃ f, pyFloatOfString s = some f ∧
        convert_scientific_to_decimal s = pyFormatF2 f) := by
  by_cases he : hasEPlus s = true
  · cases hp : pyFloatOfString s with
    | none => left; rw [convert_scientific_to_decimal, if_pos he, hp]
    | some f =>
      right
      exact ⟨he, f, rfl, by rw [convert_scientific_to_decimal, if_pos he, hp]⟩
  · left
    rw [convert_scientific_to_decimal, if_neg he]

theorem convert_of_parse_fail (s : String) (hp : pyFloatOfString s = none) :
    convert_scientific_to_decimal s = s := by
  by_cases he : hasEPlus s = true
  · rw [convert_scientific_to_decimal, if_pos he, hp]
  · rw [convert_scientific_to_decimal, if_neg he]

theorem convert_of_parse_ok (s : String) (f : PyFloat) (he : hasEPlus s = true)
    (hp : pyFloatOfString s = some f) :
    convert_scientific_to_decimal s = pyFormatF2 f := by
  rw [convert_scientific_to_decimal, if_pos he, hp]

theorem valueStep_str_nil (s : String) (h : s = "<nil>") :
    valueStep (some (Cell.str s)) = (some (Cell.str "0"), true) := by
  subst h; rfl

theorem valueStep_str_conv (s : String) (h1 : s ≠ "<nil>")
    (h2 : ((s != "") && hasEPlus s) = true) :
    valueStep (some (Cell.str s)) =
      (some (Cell.str (convert_scientific_to_decimal s)), true) := by
  simp [valueStep, h1, h2]

theorem valueStep_str_keep (s : String) (h1 : s ≠ "<nil>")
    (h2 : ((s != "") && hasEPlus s) = false) :
    valueStep (some (Cell.str s)) = (some (Cell.str s), false) := by
  simp [valueStep, h1, h2]

theorem valueStep_fst_ne_nil (v : Option Cell) :
    (valueStep v).1 ≠ some (Cell.str "<nil>") := by
  cases v with
  | none => simp [valueStep]
  | some c =>
    cases c with
    | null => simp [valueStep]
    | str s =>
      by_cases h1 : s = "<nil>"
      · rw [valueStep_str_nil s h1]; simp
      · cases h2 : ((s != "") && hasEPlus s) with
        | true =>
          rw [valueStep_str_conv s h1 h2]
          simp only [ne_eq, Option.some.injEq, Cell.str.injEq]
          intro hconv
          rcases convert_cases s with h | ⟨_, f, _, hf⟩
          · rw [h] at hconv; exact h1 hconv
          · rw [hf] at hconv; exact pyFormatF2_ne_nil_str f hconv
        | false =>
          rw [valueStep_str_keep s h1 h2]
          simp [h1]

theorem valueStep_fst_idem (v : Option Cell) :
    (valueStep ((valueStep v).1)).1 = (valueStep v).1 := by
  cases v with
  | none => rfl
  | some c =>
    cases c with
    | null => rfl
    | str s =>
      by_cases h1 : s = "<nil>"
      · rw [valueStep_str_nil s h1]
        show (valueStep (some (Cell.str "0"))).1 = some (Cell.str "0")
        rw [valueStep_str_keep "0" (by decide) (by decide)]
      · cases h2 : ((s != "") && hasEPlus s) with
        | true =>
          rw [valueStep_str_conv s h1 h2]
          show (valueStep (some (Cell.str (convert_scientific_to_decimal s)))).1 =
            some (Cell.str (convert_scientific_to_decimal s))
          rcases convert_cases s with h | ⟨_, f, _, hf⟩
          · rw [h, valueStep_str_conv s h1 h2, h]
          · rw [hf, valueStep_str_keep (pyFormatF2 f) (pyFormatF2_ne_nil_str f)
              (by rw [hasEPlus_pyFormatF2 f, Bool.and_false])]
        | false =>
          rw [valueStep_str_keep s h1 h2]
          show (valueStep (some (Cell.str s))).1 = some (Cell.str s)
          rw [valueStep_str_keep s h1 h2]

theorem valueStep_snd_iff (v : Option Cell) :
    (valueStep v).2 = true ↔
      v = some (Cell.str "<nil>") ∨
        ∃ s, v = some (Cell.str s) ∧ s ≠ "<nil>" ∧ s ≠ "" ∧ hasEPlus s = true := by
  cases v with
  | none => simp [valueStep]
  | some c =>
    cases c with
    | null => simp [valueStep]
    | str s =>
      by_cases h1 : s = "<nil>"
      · subst h1
        rw [valueStep_str_nil _ rfl]
        simp
      · cases h2 : ((s != "") && hasEPlus s) with
        | true =>
          rw [valueStep_str_conv s h1 h2]
          constructor
          · intro _
            right
            rw [Bool.and_eq_true, bne_iff_ne] at h2
            exact ⟨s, rfl, h1, h2.1, h2.2⟩
          · intro _; rfl
        | false =>
          rw [valueStep_str_keep s h1 h2]
          constructor
          · intro h; exact absurd h (by simp)
          · rintro (h | ⟨t, ht, hnil, hne, hep⟩)
            · injection h with h'
              injection h' with h''
              exact absurd h'' h1
            · injection ht with h'
              injection h' with h''
              obtain rfl : t = s := h''.symm
              have hT : ((t != "") && hasEPlus t) = true := by
                rw [Bool.and_eq_true, bne_iff_ne]
                exact ⟨hne, hep⟩
              rw [h2] at hT
              exact absurd hT (by decide)

/-! ### Idempotence of the normalizer -/

theorem fixRow_fst_idem (r : Row) : (fixRow ((fixRow r).1)).1 = (fixRow r).1 := by
  funext c
  by_cases h : c ∈ numericColumns
  · rw [fixRow_mem _ _ h, fixRow_mem _ _ h]
    exact valueStep_fst_idem (r c)
  · rw [fixRow_not_mem _ _ h, fixRow_not_mem _ _ h]

theorem fixRows_fst_idem (l : List Row) :
    (fixRows ((fixRows l).1)).1 = (fixRows l).1 := by
  rw [fixRows_fst, fixRows_fst, List.map_map]
  exact List.map_congr_left fun r _ => fixRow_fst_idem r

theorem fixRow_snd_second_pass (r : Row) :
    (fixRow ((fixRow r).1)).2 = true ↔
      ∃ col ∈ numericColumns, ∃ s, (fixRow r).1 col = some (Cell.str s) ∧
        s ≠ "" ∧ hasEPlus s = true := by
  rw [fixRow_flag]
  rw [List.any_eq_true]
  constructor
  · rintro ⟨col, hcol, hstep⟩
    rcases (valueStep_snd_iff _).mp hstep with h | ⟨s, hs, _, hne, hep⟩
    · rw [fixRow_mem r col hcol] at h
      exact absurd h (valueStep_fst_ne_nil (r col))
    · exact ⟨col, hcol, s, hs, hne, hep⟩
  · rintro ⟨col, hcol, s, hs, hne, hep⟩
    refine ⟨col, hcol, ?_⟩
    rw [valueStep_snd_iff]
    right
    have hsnil : s ≠ "<nil>" := by
      intro h
      subst h
      rw [fixRow_mem r col hcol] at hs
      exact valueStep_fst_ne_nil (r col) hs
    exact ⟨s, hs, hsnil, hne, hep⟩

/-! ### The driver loop -/

theorem foldl_runStep_processed (files : List CsvFile)
    (acc : ℕ × List String × List (String × String)) :
    (List.foldl runStep acc files).2.1 = acc.2.1 ++ files.map (fun f => f.path) := by
  induction files generalizing acc with
  | nil => simp
  | cons f t ih =>
    rw [List.foldl_cons, ih]
    cases hp : processFile f with
    | ok b => cases b <;> simp [runStep, hp]
    | error e => simp [runStep, hp]

theorem foldl_runStep_errors (files : List CsvFile)
    (acc : ℕ × List String × List (String × String)) :
    (List.foldl runStep acc files).2.2 = acc.2.2 ++ files.filterMap
      (fun f => match processFile f with
        | .error e => some (f.path, e)
        | .ok _ => none) := by
  induction files generalizing acc with
  | nil => simp
  | cons f t ih =>
    rw [List.foldl_cons, ih]
    cases hp : processFile f with
    | ok b => cases b <;> simp [runStep, hp]
    | error e => simp [runStep, hp]

theorem mem_insertSorted (x f : CsvFile) (l : List CsvFile) :
    x ∈ insertSorted f l ↔ x = f ∨ x ∈ l := by
  induction l with
  | nil => simp [insertSorted]
  | cons g t ih =>
    rw [insertSorted]
    split
    · simp [List.mem_cons]
    · simp only [List.mem_cons, ih]
      tauto

theorem mem_sortFiles (x : CsvFile) (l : List CsvFile) :
    x ∈ sortFiles l ↔ x ∈ l := by
  induction l with
  | nil => simp [sortFiles]
  | cons f t ih =>
    have h : sortFiles (f :: t) = insertSorted f (sortFiles t) := rfl
    rw [h, mem_insertSorted, ih, List.mem_cons]


/-! ### Shape of a finite rendering -/

theorem digitChar_isDigit (d : ℕ) (h : d < 10) : (digitChar d).isDigit = true := by
  interval_cases d <;> decide

theorem twoDecimalShape_helper (pre mid : List Char) (a b : Char)
    (ha : a.isDigit = true) (hb : b.isDigit = true) :
    twoDecimalShape (String.mk (pre ++ mid ++ '.' :: [a, b])) = true := by
  unfold twoDecimalShape
  have hrev : (String.mk (pre ++ mid ++ '.' :: [a, b])).toList.reverse =
      b :: a :: '.' :: (mid.reverse ++ pre.reverse) := by
    have h0 : (String.mk (pre ++ mid ++ '.' :: [a, b])).toList =
        pre ++ mid ++ '.' :: [a, b] := rfl
    rw [h0]
    simp
  rw [hrev]
  show a.isDigit && b.isDigit && ('.' == '.') = true
  rw [ha, hb]
  rfl

theorem twoDecimalShape_format (neg : Bool) (mag : ℚ) :
    twoDecimalShape (pyFormatF2 (PyFloat.finite neg mag)) = true := by
  exact twoDecimalShape_helper _ _ _ _ (digitChar_isDigit _ (by omega))
    (digitChar_isDigit _ (by omega))

/-- A singleton association-list row is `none` away from its key. -/
theorem rowOf_single_ne (k : String) (v : Cell) (c : String) (h : c ≠ k) :
    rowOf [(k, v)] c = none := by
  have hb : (k == c) = false := beq_eq_false_iff_ne.mpr (Ne.symm h)
  simp [rowOf, List.find?, hb]

/-! ### The claims -/

/-- C1 (amended): when a target field holds a non-empty string that contains
`e+` (lowercased) but that `float` rejects, the normalizer leaves the string
unchanged — but, contrary to the claim, it still counts it as a change: the
`elif` branch of `fix_csv_file` sets `changes_made = True` before
`convert_scientific_to_decimal` gets a chance to fail, so the changed flag
is true even though no value changed. -/
theorem claimC1 (r : Row) (col s : String) (hcol : col ∈ numericColumns)
    (hv : r col = some (Cell.str s)) (hne : s ≠ "") (hep : hasEPlus s = true)
    (hp : pyFloatOfString s = none) :
    (fixRow r).1 col = some (Cell.str s) ∧ (fixRow r).2 = true := by
  have hnil : s ≠ "<nil>" := by
    intro h; subst h; exact absurd hep (by decide)
  have hb : ((s != "") && hasEPlus s) = true := by
    rw [Bool.and_eq_true, bne_iff_ne]; exact ⟨hne, hep⟩
  constructor
  · rw [fixRow_mem r col hcol, hv, valueStep_str_conv s hnil hb,
      convert_of_parse_fail s hp]
  · rw [fixRow_flag, List.any_eq_true]
    exact ⟨col, hcol, by rw [hv, valueStep_str_conv s hnil hb]⟩

/-- C1 counterexample: on a row whose only field is
`total_volume_usd = "e+"` no value changes at all, yet the changed flag is
not false — refuting "does not count that value as a change: the row's
returned changed flag is false unless some other field actually changed". -/
theorem claimC1_counterexample :
    ((fixRow rowEPlus).1 "total_volume_usd" = rowEPlus "total_volume_usd" ∧
      ∀ c, c ≠ "total_volume_usd" → (fixRow rowEPlus).1 c = rowEPlus c) ∧
      ¬ (fixRow rowEPlus).2 = false := by
  refine ⟨⟨by decide, ?_⟩, by decide⟩
  intro c hc
  by_cases hmem : c ∈ numericColumns
  · have hnone : rowEPlus c = none := rowOf_single_ne _ _ _ hc
    rw [fixRow_mem _ _ hmem, hnone]
    rfl
  · rw [fixRow_not_mem _ _ hmem]

/-- C1 witness for the amended claim, at the concrete row
`total_volume_usd = "e+"`. -/
theorem claimC1_witness :
    (fixRow rowEPlus).1 "total_volume_usd" = some (Cell.str "e+") ∧
      (fixRow rowEPlus).2 = true :=
  claimC1 rowEPlus "total_volume_usd" "e+" (by decide) (by decide) (by decide)
    (by decide) (by decide)

/-- C2 (amended): a second normalization pass never changes any value, and
its changed flag is false unless the first pass's output still holds, in a
target column, a non-empty string containing `e+` (necessarily one `float`
rejects, which the first pass left in place while reporting a change); such
a value makes every pass report the file as changed. -/
theorem claimC2 (rows : List Row) :
    (fixRows ((fixRows rows).1)).1 = (fixRows rows).1 ∧
      ((fixRows ((fixRows rows).1)).2 = true ↔
        ∃ r ∈ (fixRows rows).1, ∃ col ∈ numericColumns, ∃ s,
          r col = some (Cell.str s) ∧ s ≠ "" ∧ hasEPlus s = true) := by
  refine ⟨fixRows_fst_idem rows, ?_⟩
  rw [fixRows_snd, List.any_eq_true]
  constructor
  · rintro ⟨r, hr, hflag⟩
    rw [fixRows_fst] at hr
    rcases List.mem_map.mp hr with ⟨r0, hr0, rfl⟩
    rcases (fixRow_snd_second_pass r0).mp hflag with ⟨col, hcol, s, hs, hne, hep⟩
    refine ⟨(fixRow r0).1, ?_, col, hcol, s, hs, hne, hep⟩
    rw [fixRows_fst]
    exact List.mem_map_of_mem _ hr0
  · rintro ⟨r, hr, col, hcol, s, hs, hne, hep⟩
    refine ⟨r, hr, ?_⟩
    rw [fixRow_flag, List.any_eq_true]
    refine ⟨col, hcol, ?_⟩
    rw [valueStep_snd_iff]
    right
    have hnil : s ≠ "<nil>" := by
      intro h; subst h; exact absurd hep (by decide)
    exact ⟨s, hs, hnil, hne, hep⟩

/-- C2 counterexample: for the one-row file `total_volume_usd = "e+"`, the
second pass still reports a change (`changes_made = True`), refuting "the
per-file changed flag of the second pass is false". -/
theorem claimC2_counterexample :
    (fixRows ((fixRows [rowEPlus]).1)).2 = true := by decide

/-- C3 (amended): the script raises no `DirectoryAccessError` — no such
check exists.  `glob.glob` suppresses `OSError`, so a missing or unreadable
directory behaves exactly like an empty one: zero files are discovered,
nothing is processed, no error is reported and the final summary line is
still printed. -/
theorem claimC3 (d : DirState) (h : d = DirState.missing ∨ d = DirState.unreadable) :
    mainRun d = mainRun (DirState.present []) ∧
      (mainRun d).summaryShown = true ∧ (mainRun d).found = 0 ∧
      (mainRun d).errors = [] ∧ (mainRun d).processed = [] := by
  rcases h with rfl | rfl <;> exact ⟨rfl, rfl, rfl, rfl, rfl⟩

/-- C3 counterexample: with a missing directory the run completes, prints
the summary and reports no error — refuting "fails with a
DirectoryAccessError before any file is processed … no summary-of-files
output occurs". -/
theorem claimC3_counterexample :
    (mainRun DirState.missing).summaryShown = true ∧
      (mainRun DirState.missing).found = 0 ∧
      (mainRun DirState.missing).errors = [] ∧
      (mainRun DirState.missing).processed = [] := by decide

/-- C3 witness for the amended claim, at the missing directory. -/
theorem claimC3_witness :
    mainRun DirState.missing = mainRun (DirState.present []) ∧
      (mainRun DirState.missing).summaryShown = true ∧
      (mainRun DirState.missing).found = 0 ∧
      (mainRun DirState.missing).errors = [] ∧
      (mainRun DirState.missing).processed = [] :=
  claimC3 DirState.missing (Or.inl rfl)

/-- C4: a target field present with the exact value `<nil>` becomes exactly
the string `"0"` and the row's changed flag becomes true. -/
theorem claimC4 (r : Row) (col : String) (hcol : col ∈ numericColumns)
    (hv : r col = some (Cell.str "<nil>")) :
    (fixRow r).1 col = some (Cell.str "0") ∧ (fixRow r).2 = true := by
  constructor
  · rw [fixRow_mem r col hcol, hv, valueStep_str_nil _ rfl]
  · rw [fixRow_flag, List.any_eq_true]
    exact ⟨col, hcol, by rw [hv, valueStep_str_nil _ rfl]⟩

/-- C4 witness at the concrete row `total_volume_usd = "<nil>"`. -/
theorem claimC4_witness :
    (fixRow rowNilV).1 "total_volume_usd" = some (Cell.str "0") ∧
      (fixRow rowNilV).2 = true :=
  claimC4 rowNilV "total_volume_usd" (by decide) (by decide)

/-- C5 (amended): a non-`<nil>`, non-empty target value containing `e+`
that `float` accepts is replaced by Python's `%.2f` rendering of the parsed
value and counted as a change; when the parsed value is finite that
rendering has exactly two digits after the decimal point (in particular
`"1.5e+07"` becomes `"15000000.00"`), but a literal that overflows binary64
(such as `"1e+999"`) parses to infinity and is replaced by `"inf"`, which
has no such shape. -/
theorem claimC5 (r : Row) (col s : String) (f : PyFloat) (hcol : col ∈ numericColumns)
    (hv : r col = some (Cell.str s)) (hne : s ≠ "") (hep : hasEPlus s = true)
    (hp : pyFloatOfString s = some f) :
    (fixRow r).1 col = some (Cell.str (pyFormatF2 f)) ∧ (fixRow r).2 = true ∧
      ∀ neg mag, f = PyFloat.finite neg mag → twoDecimalShape (pyFormatF2 f) = true := by
  have hnil : s ≠ "<nil>" := by
    intro h; subst h; exact absurd hep (by decide)
  have hb : ((s != "") && hasEPlus s) = true := by
    rw [Bool.and_eq_true, bne_iff_ne]; exact ⟨hne, hep⟩
  refine ⟨?_, ?_, ?_⟩
  · rw [fixRow_mem r col hcol, hv, valueStep_str_conv s hnil hb,
      convert_of_parse_ok s f hep hp]
  · rw [fixRow_flag, List.any_eq_true]
    exact ⟨col, hcol, by rw [hv, valueStep_str_conv s hnil hb]⟩
  · rintro neg mag rfl
    exact twoDecimalShape_format neg mag

/-- C5 counterexample: `"1e+999"` in a target field parses as a float
(Python's `float` returns infinity on overflow instead of raising), and the
normalizer replaces it with `"inf"`, which is not a fixed-point decimal
rendering with two digits after the decimal point. -/
theorem claimC5_counterexample :
    pyFloatOfString "1e+999" = some (PyFloat.inf false) ∧
      (fixRow rowOverflow).1 "total_volume_usd" = some (Cell.str "inf") ∧
      twoDecimalShape "inf" = false := by decide

/-- C5 witness for the amended claim: `"1.5e+07"` becomes `"15000000.00"`. -/
theorem claimC5_witness :
    (fixRow rowSci).1 "daily_users" = some (Cell.str "15000000.00") ∧
      (fixRow rowSci).2 = true := by
  have h := claimC5 rowSci "daily_users" "1.5e+07" (PyFloat.finite false (mkRat 15000000 1))
    (by decide) (by decide) (by decide) (by decide) (by decide)
  refine ⟨?_, h.2.1⟩
  rw [h.1]
  have hfmt : pyFormatF2 (PyFloat.finite false (mkRat 15000000 1)) = "15000000.00" := by
    decide
  rw [hfmt]

/-- C6: a column not in `numeric_columns` is never touched by the row
normalizer, whatever its value. -/
theorem claimC6 (r : Row) (c : String) (h : c ∉ numericColumns) :
    (fixRow r).1 c = r c :=
  fixRow_not_mem r c h

/-- C6 witness: the `date` column of the scenario row is untouched. -/
theorem claimC6_witness :
    (fixRow rowScenario).1 "date" = rowScenario "date" ∧
      rowScenario "date" = some (Cell.str "2024-01-01") :=
  ⟨claimC6 rowScenario "date" (by decide), by decide⟩

/-- C7: when nothing changed the rewriter performs no write; when something
changed the file is rewritten with the identical header, the same number of
rows (in original order), and every serialized row listing its fields in
header order (hence with exactly one field per header column). -/
theorem claimC7 (header : List String) (rows : List Row) :
    ((fix_csv_file header rows).changed = false →
      (fix_csv_file header rows).written = none) ∧
    ((fix_csv_file header rows).changed = true →
      (fix_csv_file header rows).written =
        some (header, ((fixRows rows).1).map (writeRow header)) ∧
      (((fixRows rows).1).map (writeRow header)).length = rows.length ∧
      ∀ w ∈ ((fixRows rows).1).map (writeRow header), w.length = header.length) := by
  constructor
  · intro h
    show (if (fixRows rows).2 then
      some (header, ((fixRows rows).1).map (writeRow header)) else none) = none
    rw [show (fixRows rows).2 = false from h]
    rfl
  · intro h
    refine ⟨?_, ?_, ?_⟩
    · show (if (fixRows rows).2 then
        some (header, ((fixRows rows).1).map (writeRow header)) else none) = _
      rw [show (fixRows rows).2 = true from h]
      rfl
    · rw [List.length_map, fixRows_length]
    · intro w hw
      rcases List.mem_map.mp hw with ⟨r, _, rfl⟩
      rw [writeRow, List.length_map]

/-- C7 witness: the scenario file changes, so it is rewritten with its own
header and its single row. -/
theorem claimC7_witness :
    ∃ w, (fix_csv_file hdr7 [rowScenario]).written = some (hdr7, w) ∧
      w.length = 1 := by
  have h := (claimC7 hdr7 [rowScenario]).2 (by decide)
  refine ⟨((fixRows [rowScenario]).1).map (writeRow hdr7), h.1, ?_⟩
  rw [h.2.1]
  rfl

/-- C8: an error while processing one file is reported with the file's path
and error text, every candidate file is still attempted, and the final
summary is printed — one bad file never aborts the run. -/
theorem claimC8 (d : DirState) (f : CsvFile) (e : String)
    (hf : f ∈ csvCandidates d) (he : processFile f = Except.error e) :
    (f.path, e) ∈ (mainRun d).errors ∧
      (∀ g ∈ csvCandidates d, g.path ∈ (mainRun d).processed) ∧
      (mainRun d).summaryShown = true := by
  refine ⟨?_, ?_, rfl⟩
  · show (f.path, e) ∈ (List.foldl runStep (0, [], []) (sortFiles (csvCandidates d))).2.2
    rw [foldl_runStep_errors]
    simp only [List.nil_append]
    rw [List.mem_filterMap]
    refine ⟨f, (mem_sortFiles f _).mpr hf, ?_⟩
    rw [he]
  · intro g hg
    show g.path ∈ (List.foldl runStep (0, [], []) (sortFiles (csvCandidates d))).2.1
    rw [foldl_runStep_processed]
    simp only [List.nil_append]
    exact List.mem_map_of_mem _ ((mem_sortFiles g _).mpr hg)

/-- C8 witness: in a directory with one unparseable file and one good file,
the bad file is reported, the good file is still processed, and the summary
appears. -/
theorem claimC8_witness :
    ("a.csv", "bad line") ∈ (mainRun dirWithBad).errors ∧
      "b.csv" ∈ (mainRun dirWithBad).processed ∧
      (mainRun dirWithBad).summaryShown = true := by
  have hcand : csvCandidates dirWithBad = [goodFile, badFile] := rfl
  have hmem : badFile ∈ csvCandidates dirWithBad := by
    rw [hcand]
    exact List.mem_cons_of_mem _ (List.mem_cons_self _ _)
  have h := claimC8 dirWithBad badFile "bad line" hmem rfl
  refine ⟨h.1, ?_, h.2.2⟩
  have hg : goodFile ∈ csvCandidates dirWithBad := by
    rw [hcand]
    exact List.mem_cons_self _ _
  exact h.2.1 goodFile hg

/-- C9: `convert_scientific_to_decimal` is total (the embedding returns a
plain `String`; the source wraps its body in a bare `try/except` returning
the input) and always yields either the input unchanged or the `%.2f`
rendering of the successfully parsed float. -/
theorem claimC9 (s : String) :
    convert_scientific_to_decimal s = s ∨
      ∃ f, pyFloatOfString s = some f ∧
        convert_scientific_to_decimal s = pyFormatF2 f := by
  rcases convert_cases s with h | ⟨_, f, hp, hf⟩
  · exact Or.inl h
  · exact Or.inr ⟨f, hp, hf⟩

/-- C10: a target field that is absent, holds `None` (short row), or holds
the empty string is left untouched, contributes no change, and any true
changed flag must come from a different column. -/
theorem claimC10 (r : Row) (col : String) (hcol : col ∈ numericColumns)
    (hv : r col = none ∨ r col = some Cell.null ∨ r col = some (Cell.str "")) :
    (fixRow r).1 col = r col ∧ (valueStep (r col)).2 = false ∧
      ((fixRow r).2 = true →
        ∃ c ∈ numericColumns, c ≠ col ∧ (valueStep (r c)).2 = true) := by
  have hstep : valueStep (r col) = (r col, false) := by
    rcases hv with h | h | h <;> rw [h]
    · rfl
    · rfl
    · rw [valueStep_str_keep "" (by decide) (by decide)]
  refine ⟨?_, ?_, ?_⟩
  · rw [fixRow_mem r col hcol, hstep]
  · rw [hstep]
  · intro hflag
    rw [fixRow_flag, List.any_eq_true] at hflag
    rcases hflag with ⟨c, hc, hcflag⟩
    refine ⟨c, hc, ?_, hcflag⟩
    intro hcc
    subst hcc
    rw [hstep] at hcflag
    simp at hcflag

/-- C10 witness: an empty-string cell and a `None` cell in target columns
are untouched and contribute no change. -/
theorem claimC10_witness :
    (fixRow rowEmptyCell).1 "daily_trades" = rowEmptyCell "daily_trades" ∧
      (fixRow rowEmptyCell).1 "total_fees_usd" = rowEmptyCell "total_fees_usd" ∧
      (valueStep (rowEmptyCell "daily_trades")).2 = false := by
  have h1 := claimC10 rowEmptyCell "daily_trades" (by decide)
    (Or.inr (Or.inr (by decide)))
  have h2 := claimC10 rowEmptyCell "total_fees_usd" (by decide)
    (Or.inr (Or.inl (by decide)))
  exact ⟨h1.1, h2.1, h1.2.1⟩

end CsvFix
